import Mathlib

/-!
Verification of the trend-classifier core of the heat-check repository.

The repository holds two near-duplicate Streamlit apps.  Their shared
analytical core is `analyze_trend`, which splits a player's game series into
a baseline window and a recent window and labels each selected statistic as
Heating Up, Cooling Down or Stable.  `who_is_hot_app.py` compares the
relative change of the means against a fixed 5% threshold; `heat_check.py`
compares the absolute change of the means against the sample standard
deviation of the baseline window.  `heat_check.py` additionally defines
`normalize_name`, a player-name canonicalisation routine.

Game records are embedded as total functions from statistic names to
rational values (the app only ever reads the selected numeric columns), and
a game series as a list of such records in chronological order.  Pandas
`mean`/`std` over a window become exact rational arithmetic; pandas `std`
uses the sample (ddof = 1) denominator and is NaN on windows of fewer than
two rows, which the embedding renders as an explicit guard.  The square
root inside the standard deviation is handled by the decidable comparison
`sqrtLt v d`, which holds exactly when `Real.sqrt v < d` for the
non-negative variance `v` (lemma `sqrtLt_iff_sqrt_lt` below).
-/

namespace HeatCheck

/-- Trend labels emitted by `analyze_trend` (the emoji decoration of the
comment strings is immaterial). -/
inductive Label : Type
  | heating
  | cooling
  | stable
  deriving DecidableEq, Repr

/-- Arithmetic mean of a list of values, as computed by pandas `mean` on a
non-empty window (the classifiers only apply it to non-empty windows). -/
def mean (xs : List ℚ) : ℚ := xs.sum / (xs.length : ℚ)

/-- pandas `DataFrame.head n`: the first `n` rows. -/
def pdHead (n : ℕ) (l : List α) : List α := l.take n

/-- pandas `DataFrame.tail n`: the last `n` rows. -/
def pdTail (n : ℕ) (l : List α) : List α := l.drop (l.length - n)

/-- The recent window: `player_stats.tail(recent_check)`. -/
def recentWindow (p : List α) (R : ℕ) : List α := pdTail R p

/-- The baseline window: `player_stats.head(len(player_stats) - recent_check)`. -/
def baselineWindow (p : List α) (R : ℕ) : List α := pdHead (p.length - R) p

/-- One statistic's column of values across a window of game records. -/
def statValues (p : List (String → ℚ)) (stat : String) : List ℚ :=
  p.map (fun g => g stat)

/-- The fixed 5% threshold of `who_is_hot_app.py` (`threshold = 0.05`). -/
def threshold : ℚ := 5 / 100

/-- Loop body of the percentage-method `analyze_trend`
(`who_is_hot_app.py`, lines 58-70): skip the statistic when the baseline
mean (`baseline_val`) is zero, otherwise compare the relative change
`diff = (recent_avg - baseline_val) / baseline_val` of the means against
the fixed threshold. -/
def pctLabel (baseline recent : List ℚ) : Option Label :=
  if mean baseline = 0 then none
  else if threshold < (mean recent - mean baseline) / mean baseline then some Label.heating
  else if (mean recent - mean baseline) / mean baseline < -threshold then some Label.cooling
  else some Label.stable

/-- Sample variance with the `n - 1` denominator, matching pandas
`std(ddof=1)` squared.  Only applied behind a `length < 2` guard. -/
def sampleVar (xs : List ℚ) : ℚ :=
  (xs.map (fun x => (x - mean xs) ^ 2)).sum / ((xs.length - 1 : ℕ) : ℚ)

/-- Decidable rendering of `Real.sqrt v < d` for a non-negative rational
`v`: the square root of the variance (the standard deviation) is below `d`
iff `d` is positive and `v < d ^ 2`.  See `sqrtLt_iff_sqrt_lt`. -/
def sqrtLt (v d : ℚ) : Bool := decide (0 < d) && decide (v < d ^ 2)

/-- Loop body of the stddev-method `analyze_trend` (`heat_check.py`,
lines 114-128): skip the statistic when the baseline standard deviation is
NaN (fewer than two baseline rows under ddof = 1) or zero, otherwise
compare the change of the means against one baseline standard deviation.
`std_val == 0` holds exactly when the sample variance is zero, and
`diff > std_val` (resp. `diff < -std_val`) is `sqrtLt (sampleVar b) diff`
(resp. `sqrtLt (sampleVar b) (-diff)`). -/
def stdLabel (baseline recent : List ℚ) : Option Label :=
  if baseline.length < 2 then none
  else if sampleVar baseline = 0 then none
  else if sqrtLt (sampleVar baseline) (mean recent - mean baseline) then some Label.heating
  else if sqrtLt (sampleVar baseline) (-(mean recent - mean baseline)) then some Label.cooling
  else some Label.stable

/-- The per-statistic classification of the percentage variant, applied to
the baseline and recent columns of one statistic. -/
def pctStatLabel (p : List (String → ℚ)) (R : ℕ) (stat : String) : Option Label :=
  pctLabel (statValues (baselineWindow p R) stat) (statValues (recentWindow p R) stat)

/-- The per-statistic classification of the stddev variant. -/
def stdStatLabel (p : List (String → ℚ)) (R : ℕ) (stat : String) : Option Label :=
  stdLabel (statValues (baselineWindow p R) stat) (statValues (recentWindow p R) stat)

/-- `analyze_trend` of `who_is_hot_app.py`: `none` models the early
`return` after the insufficient-data warning; otherwise the emitted
comments, one per selected statistic that is not skipped, in selection
order. -/
def analyze_trend_pct (playerStats : List (String → ℚ)) (selectedStats : List String)
    (recentCheck : ℕ) : Option (List (String × Label)) :=
  if playerStats.length < recentCheck + 1 then none
  else some (selectedStats.filterMap (fun stat =>
    (pctStatLabel playerStats recentCheck stat).map (fun l => (stat, l))))

/-- `analyze_trend` of `heat_check.py`: same shape, stddev method. -/
def analyze_trend_std (playerStats : List (String → ℚ)) (selectedStats : List String)
    (recentCheck : ℕ) : Option (List (String × Label)) :=
  if playerStats.length < recentCheck + 1 then none
  else some (selectedStats.filterMap (fun stat =>
    (stdStatLabel playerStats recentCheck stat).map (fun l => (stat, l))))

/-- Relative change of the means used by the percentage method. -/
def pctDiff (p : List (String → ℚ)) (R : ℕ) (stat : String) : ℚ :=
  (mean (statValues (recentWindow p R) stat) - mean (statValues (baselineWindow p R) stat))
    / mean (statValues (baselineWindow p R) stat)

/-- Absolute change of the means used by the stddev method. -/
def stdDiff (p : List (String → ℚ)) (R : ℕ) (stat : String) : ℚ :=
  mean (statValues (recentWindow p R) stat) - mean (statValues (baselineWindow p R) stat)

/-- Baseline mean of one statistic. -/
def baselineMean (p : List (String → ℚ)) (R : ℕ) (stat : String) : ℚ :=
  mean (statValues (baselineWindow p R) stat)

/-- Recent mean of one statistic. -/
def recentMean (p : List (String → ℚ)) (R : ℕ) (stat : String) : ℚ :=
  mean (statValues (recentWindow p R) stat)

/-- Baseline sample variance of one statistic. -/
def baselineVar (p : List (String → ℚ)) (R : ℕ) (stat : String) : ℚ :=
  sampleVar (statValues (baselineWindow p R) stat)

/-- A game record with the same value for every statistic. -/
def constRec (q : ℚ) : String → ℚ := fun _ => q

/-! ### Basic lemmas about the embedded classifiers -/

theorem statValues_length (p : List (String → ℚ)) (stat : String) :
    (statValues p stat).length = p.length := by
  simp [statValues]

theorem sampleVar_nonneg (xs : List ℚ) : 0 ≤ sampleVar xs := by
  unfold sampleVar
  refine div_nonneg (List.sum_nonneg ?_) (by positivity)
  intro x hx
  simp only [List.mem_map] at hx
  obtain ⟨y, _, rfl⟩ := hx
  positivity

/-- The decidable comparison `sqrtLt v d` means exactly that the standard
deviation `Real.sqrt v` is strictly below `d`. -/
theorem sqrtLt_iff_sqrt_lt (v d : ℚ) :
    sqrtLt v d = true ↔ Real.sqrt (v : ℝ) < (d : ℝ) := by
  unfold sqrtLt
  simp only [Bool.and_eq_true, decide_eq_true_eq]
  constructor
  · rintro ⟨hd, hlt⟩
    have hd2 : (0:ℝ) < (d:ℝ) := by exact_mod_cast hd
    rw [Real.sqrt_lt' hd2]
    exact_mod_cast hlt
  · intro h
    have h0 : (0:ℝ) ≤ Real.sqrt (v:ℝ) := Real.sqrt_nonneg _
    have hd2 : (0:ℝ) < (d:ℝ) := lt_of_le_of_lt h0 h
    refine ⟨by exact_mod_cast hd2, ?_⟩
    have := (Real.sqrt_lt' hd2).mp h
    exact_mod_cast this

theorem analyze_pct_eq (p : List (String → ℚ)) (sel : List String) (R : ℕ)
    (h : R + 1 ≤ p.length) :
    analyze_trend_pct p sel R
      = some (sel.filterMap (fun s => (pctStatLabel p R s).map (fun l => (s, l)))) := by
  unfold analyze_trend_pct
  rw [if_neg (by omega)]

theorem analyze_std_eq (p : List (String → ℚ)) (sel : List String) (R : ℕ)
    (h : R + 1 ≤ p.length) :
    analyze_trend_std p sel R
      = some (sel.filterMap (fun s => (stdStatLabel p R s).map (fun l => (s, l)))) := by
  unfold analyze_trend_std
  rw [if_neg (by omega)]

theorem mem_filterMap_pair_iff (sel : List String) (f : String → Option Label)
    (stat : String) (l : Label) (hmem : stat ∈ sel) :
    (stat, l) ∈ sel.filterMap (fun s => (f s).map (fun x => (s, x))) ↔ f stat = some l := by
  simp only [List.mem_filterMap, Option.map_eq_some']
  constructor
  · rintro ⟨s, _, a, ha, heq⟩
    injection heq with h1 h2
    subst h1; subst h2
    exact ha
  · intro h
    exact ⟨stat, hmem, l, h, rfl⟩

theorem not_mem_filterMap_pair (sel : List String) (f : String → Option Label)
    (stat : String) (hnone : f stat = none) (l : Label) :
    (stat, l) ∉ sel.filterMap (fun s => (f s).map (fun x => (s, x))) := by
  simp only [List.mem_filterMap, Option.map_eq_some', not_exists]
  rintro s ⟨_, a, ha, heq⟩
  injection heq with h1 h2
  subst h1
  rw [hnone] at ha
  exact Option.noConfusion ha

theorem count_key_filterMap_of_not_mem (f : String → Option Label) (stat : String) :
    ∀ sel : List String, stat ∉ sel →
      ((sel.filterMap (fun s => (f s).map (fun x => (s, x)))).map Prod.fst).count stat = 0
  | [], _ => by simp
  | s :: rest, hmem => by
    have hs : s ≠ stat := fun h => hmem (h ▸ List.mem_cons_self s rest)
    have hrest : stat ∉ rest := fun h => hmem (List.mem_cons_of_mem s h)
    cases hfs : f s with
    | none =>
      simpa [List.filterMap_cons, hfs] using count_key_filterMap_of_not_mem f stat rest hrest
    | some l =>
      simp only [List.filterMap_cons, hfs, Option.map_some', List.map_cons,
        List.count_cons]
      rw [count_key_filterMap_of_not_mem f stat rest hrest]
      simp [hs]

theorem count_key_filterMap (f : String → Option Label) (stat : String) :
    ∀ sel : List String, sel.Nodup → stat ∈ sel →
      ((sel.filterMap (fun s => (f s).map (fun x => (s, x)))).map Prod.fst).count stat
        = if (f stat).isSome then 1 else 0
  | [], _, hmem => absurd hmem (List.not_mem_nil stat)
  | s :: rest, hnd, hmem => by
    rcases List.mem_cons.mp hmem with heq | hrest
    · subst heq
      have hnotin : stat ∉ rest := (List.nodup_cons.mp hnd).1
      cases hfs : f stat with
      | none =>
        simpa [List.filterMap_cons, hfs]
          using count_key_filterMap_of_not_mem f stat rest hnotin
      | some l =>
        simp only [List.filterMap_cons, hfs, Option.map_some', List.map_cons,
          List.count_cons, Option.isSome_some, if_true]
        rw [count_key_filterMap_of_not_mem f stat rest hnotin]
        simp
    · have hnd2 : rest.Nodup := (List.nodup_cons.mp hnd).2
      have hs : s ≠ stat := by
        rintro rfl
        exact (List.nodup_cons.mp hnd).1 hrest
      cases hfs : f s with
      | none =>
        simpa [List.filterMap_cons, hfs] using count_key_filterMap f stat rest hnd2 hrest
      | some l =>
        simp only [List.filterMap_cons, hfs, Option.map_some', List.map_cons,
          List.count_cons]
        rw [count_key_filterMap f stat rest hnd2 hrest]
        simp [hs]

theorem pctStatLabel_characterization (p : List (String → ℚ)) (R : ℕ) (stat : String)
    (hb : baselineMean p R stat ≠ 0) :
    (pctStatLabel p R stat = some Label.heating ↔ threshold < pctDiff p R stat) ∧
    (pctStatLabel p R stat = some Label.cooling ↔ pctDiff p R stat < -threshold) ∧
    (pctStatLabel p R stat = some Label.stable ↔
      ¬ threshold < pctDiff p R stat ∧ ¬ pctDiff p R stat < -threshold) := by
  have hth : (0:ℚ) < threshold := by norm_num [threshold]
  unfold baselineMean at hb
  unfold pctStatLabel pctLabel pctDiff
  rw [if_neg hb]
  split_ifs with h1 h2
  · refine ⟨by simp [h1], ?_, ?_⟩
    · constructor
      · intro h; exact absurd h (by simp)
      · intro h; linarith
    · constructor
      · intro h; exact absurd h (by simp)
      · rintro ⟨hc, _⟩; exact absurd h1 hc
  · refine ⟨by simp [h1], by simp [h2], ?_⟩
    constructor
    · intro h; exact absurd h (by simp)
    · rintro ⟨_, hc⟩; exact absurd h2 hc
  · exact ⟨by simp [h1], by simp [h2], by simp [h1, h2]⟩

theorem stdStatLabel_characterization (p : List (String → ℚ)) (R : ℕ) (stat : String)
    (hn : 2 ≤ (baselineWindow p R).length) (hv : baselineVar p R stat ≠ 0) :
    (stdStatLabel p R stat = some Label.heating ↔
      Real.sqrt (baselineVar p R stat : ℝ) < (stdDiff p R stat : ℝ)) ∧
    (stdStatLabel p R stat = some Label.cooling ↔
      (stdDiff p R stat : ℝ) < -Real.sqrt (baselineVar p R stat : ℝ)) ∧
    (stdStatLabel p R stat = some Label.stable ↔
      |(stdDiff p R stat : ℝ)| ≤ Real.sqrt (baselineVar p R stat : ℝ)) := by
  have hsq0 : (0:ℝ) ≤ Real.sqrt (baselineVar p R stat : ℝ) := Real.sqrt_nonneg _
  have hlen : ¬ (statValues (baselineWindow p R) stat).length < 2 := by
    rw [statValues_length]; omega
  unfold baselineVar at hv hsq0 ⊢
  unfold stdStatLabel stdLabel stdDiff
  rw [if_neg hlen, if_neg hv]
  set v : ℚ := sampleVar (statValues (baselineWindow p R) stat) with hvdef
  set d : ℚ := mean (statValues (recentWindow p R) stat)
    - mean (statValues (baselineWindow p R) stat) with hddef
  have hbridge : ∀ e : ℚ, sqrtLt v e = true ↔ Real.sqrt (v : ℝ) < (e : ℝ) :=
    fun e => sqrtLt_iff_sqrt_lt v e
  split_ifs with h1 h2
  · have hs : Real.sqrt (v : ℝ) < (d : ℝ) := (hbridge d).mp h1
    refine ⟨by simp [hs], ?_, ?_⟩
    · constructor
      · intro h; exact absurd h (by simp)
      · intro h
        have : (d:ℝ) < 0 := lt_of_lt_of_le h (by linarith)
        linarith
    · constructor
      · intro h; exact absurd h (by simp)
      · intro h
        have : (d:ℝ) ≤ Real.sqrt (v : ℝ) := (abs_le.mp h).2
        linarith
  · have hns : ¬ Real.sqrt (v : ℝ) < (d : ℝ) := fun h => h1 ((hbridge d).mpr h)
    have hs2 : Real.sqrt (v : ℝ) < ((-d : ℚ) : ℝ) := (hbridge (-d)).mp h2
    have hs2R : (d : ℝ) < -Real.sqrt (v : ℝ) := by push_cast at hs2; linarith
    refine ⟨by simpa using hns, by simp [hs2R], ?_⟩
    constructor
    · intro h; exact absurd h (by simp)
    · intro h
      have : -Real.sqrt (v : ℝ) ≤ (d:ℝ) := (abs_le.mp h).1
      linarith
  · have hns : ¬ Real.sqrt (v : ℝ) < (d : ℝ) := fun h => h1 ((hbridge d).mpr h)
    have hns2 : ¬ Real.sqrt (v : ℝ) < ((-d : ℚ) : ℝ) := fun h => h2 ((hbridge (-d)).mpr h)
    have habs : |(d : ℝ)| ≤ Real.sqrt (v : ℝ) := by
      rw [abs_le]
      constructor
      · push_cast at hns2; linarith
      · linarith
    refine ⟨by simpa using hns, ?_, by simp [habs]⟩
    constructor
    · intro h; exact absurd h (by simp)
    · intro h
      have : Real.sqrt (v : ℝ) < ((-d : ℚ) : ℝ) := by push_cast; linarith
      exact absurd this hns2

/-! ### Concrete series used for witnesses and counterexamples -/

/-- Scenario series for the percentage method: baseline `[10,10,10]`,
recent (`R = 3`) `[15,15,15]`. -/
def pointsSeries : List (String → ℚ) :=
  [constRec 10, constRec 10, constRec 10, constRec 15, constRec 15, constRec 15]

/-- Scenario series for the stddev method: baseline `[10,12,8]`,
recent (`R = 2`) `[13,13]`. -/
def stdSeries : List (String → ℚ) :=
  [constRec 10, constRec 12, constRec 8, constRec 13, constRec 13]

/-- Boundary series for the stddev method: baseline `[10,12,8]`
(stddev 2), recent (`R = 2`) `[12,12]`, so the change of means is
exactly one standard deviation. -/
def boundarySeries : List (String → ℚ) :=
  [constRec 10, constRec 12, constRec 8, constRec 12, constRec 12]

/-- All-zero series: the percentage method's degenerate baseline. -/
def allZeroSeries : List (String → ℚ) := [constRec 0, constRec 0, constRec 0]

/-- Two-game all-zero series, also a degenerate percentage baseline. -/
def zeroPairSeries : List (String → ℚ) := [constRec 0, constRec 0]

/-- Constant series: the stddev method's degenerate baseline
(zero baseline standard deviation). -/
def constantSeries : List (String → ℚ) := [constRec 5, constRec 5, constRec 5]

/-- A single-game series, shorter than `R + 1` for every `R ≥ 1`. -/
def singleGameSeries : List (String → ℚ) := [constRec 7]

/-! ### Claim C5 -/

/-- C5: for every series with length `< R + 1`, both variants of
`analyze_trend` report insufficient data (the Streamlit warning followed
by an early `return`, embedded as `none`) and emit no per-statistic
labels at all. -/
theorem C5_insufficient_data_no_result (p : List (String → ℚ)) (sel : List String)
    (R : ℕ) (h : p.length < R + 1) :
    analyze_trend_pct p sel R = none ∧ analyze_trend_std p sel R = none := by
  unfold analyze_trend_pct analyze_trend_std
  rw [if_pos h, if_pos h]
  exact ⟨rfl, rfl⟩

/-- Witness for C5: a one-game series is too short for `R = 1`. -/
theorem C5_witness :
    singleGameSeries.length < 1 + 1 ∧
      analyze_trend_pct singleGameSeries ["PTS"] 1 = none ∧
      analyze_trend_std singleGameSeries ["PTS"] 1 = none :=
  ⟨by decide, C5_insufficient_data_no_result singleGameSeries ["PTS"] 1 (by decide)⟩

/-! ### Claim C6 -/

/-- C6: for every series with length `≥ R + 1`, the classifier windows
partition the series by position: the baseline window is exactly the
first `len - R` records and the recent window is exactly the last `R`
records, and the two windows concatenate back to the series (so every
record belongs to exactly one window). -/
theorem C6_windows_partition (p : List (String → ℚ)) (R : ℕ) (h : R + 1 ≤ p.length) :
    baselineWindow p R ++ recentWindow p R = p ∧
    baselineWindow p R = p.take (p.length - R) ∧
    recentWindow p R = p.drop (p.length - R) ∧
    (baselineWindow p R).length = p.length - R ∧
    (recentWindow p R).length = R := by
  unfold baselineWindow recentWindow pdHead pdTail
  refine ⟨List.take_append_drop _ p, rfl, rfl, ?_, ?_⟩
  · rw [List.length_take]; omega
  · rw [List.length_drop]; omega

/-- Witness for C6 at a concrete three-game series and `R = 1`. -/
theorem C6_witness :
    baselineWindow allZeroSeries 1 ++ recentWindow allZeroSeries 1 = allZeroSeries ∧
    baselineWindow allZeroSeries 1 = allZeroSeries.take (allZeroSeries.length - 1) ∧
    recentWindow allZeroSeries 1 = allZeroSeries.drop (allZeroSeries.length - 1) ∧
    (baselineWindow allZeroSeries 1).length = allZeroSeries.length - 1 ∧
    (recentWindow allZeroSeries 1).length = 1 :=
  C6_windows_partition allZeroSeries 1 (by decide)

/-! ### Claim C3 -/

/-- C3: percentage method with nonzero baseline mean: with
`diff = (recent_mean - baseline_mean) / baseline_mean` and the fixed
threshold `0.05`, the emitted label is Heating exactly when
`diff > 0.05`, Cooling exactly when `diff < -0.05`, and Stable exactly
otherwise. -/
theorem C3_percentage_rule (p : List (String → ℚ)) (sel : List String) (R : ℕ)
    (stat : String) (hR : 1 ≤ R) (hlen : R + 1 ≤ p.length) (hmem : stat ∈ sel)
    (hb : baselineMean p R stat ≠ 0) :
    threshold = 5 / 100 ∧
    ∃ r, analyze_trend_pct p sel R = some r ∧
      (((stat, Label.heating) ∈ r) ↔ threshold < pctDiff p R stat) ∧
      (((stat, Label.cooling) ∈ r) ↔ pctDiff p R stat < -threshold) ∧
      (((stat, Label.stable) ∈ r) ↔
        ¬ threshold < pctDiff p R stat ∧ ¬ pctDiff p R stat < -threshold) := by
  obtain ⟨hh, hc, hs⟩ := pctStatLabel_characterization p R stat hb
  refine ⟨rfl, _, analyze_pct_eq p sel R hlen, ?_, ?_, ?_⟩
  · rw [mem_filterMap_pair_iff sel (pctStatLabel p R) stat Label.heating hmem]; exact hh
  · rw [mem_filterMap_pair_iff sel (pctStatLabel p R) stat Label.cooling hmem]; exact hc
  · rw [mem_filterMap_pair_iff sel (pctStatLabel p R) stat Label.stable hmem]; exact hs

/-- Witness for C3: the spec scenario — six games `[10,10,10,15,15,15]`,
`R = 3`, so `diff = 1/2 > 0.05` and the statistic is labelled Heating. -/
theorem C3_witness :
    pctDiff pointsSeries 3 "points" = 1 / 2 ∧
    ∃ r, analyze_trend_pct pointsSeries ["points"] 3 = some r ∧
      ("points", Label.heating) ∈ r := by
  have hdiff : pctDiff pointsSeries 3 "points" = 1 / 2 := by
    norm_num [pctDiff, statValues, baselineWindow, recentWindow, pdHead, pdTail, mean,
      constRec, pointsSeries]
  refine ⟨hdiff, ?_⟩
  obtain ⟨-, r, hr, hh, -, -⟩ := C3_percentage_rule pointsSeries ["points"] 3 "points"
    (by norm_num) (by norm_num [pointsSeries]) (List.mem_singleton.mpr rfl)
    (by norm_num [baselineMean, statValues, baselineWindow, pdHead, mean, constRec,
      pointsSeries])
  exact ⟨r, hr, hh.mpr (by rw [hdiff]; norm_num [threshold])⟩

/-! ### Claim C4 -/

/-- C4: stddev method with at least two baseline games and nonzero
baseline sample variance (`sampleVar`, the `n - 1` denominator): with
`diff = recent_mean - baseline_mean`, the label is Heating exactly when
`diff` exceeds the baseline sample standard deviation
`Real.sqrt (baselineVar)`, Cooling exactly when `diff` is below its
negation, and Stable exactly otherwise. -/
theorem C4_stddev_rule (p : List (String → ℚ)) (sel : List String) (R : ℕ)
    (stat : String) (hR : 1 ≤ R) (hlen : R + 1 ≤ p.length) (hmem : stat ∈ sel)
    (hn : 2 ≤ (baselineWindow p R).length) (hv : baselineVar p R stat ≠ 0) :
    ∃ r, analyze_trend_std p sel R = some r ∧
      (((stat, Label.heating) ∈ r) ↔
        Real.sqrt (baselineVar p R stat : ℝ) < (stdDiff p R stat : ℝ)) ∧
      (((stat, Label.cooling) ∈ r) ↔
        (stdDiff p R stat : ℝ) < -Real.sqrt (baselineVar p R stat : ℝ)) ∧
      (((stat, Label.stable) ∈ r) ↔
        |(stdDiff p R stat : ℝ)| ≤ Real.sqrt (baselineVar p R stat : ℝ)) := by
  obtain ⟨hh, hc, hs⟩ := stdStatLabel_characterization p R stat hn hv
  refine ⟨_, analyze_std_eq p sel R hlen, ?_, ?_, ?_⟩
  · rw [mem_filterMap_pair_iff sel (stdStatLabel p R) stat Label.heating hmem]; exact hh
  · rw [mem_filterMap_pair_iff sel (stdStatLabel p R) stat Label.cooling hmem]; exact hc
  · rw [mem_filterMap_pair_iff sel (stdStatLabel p R) stat Label.stable hmem]; exact hs

/-- Witness for C4: the spec scenario — baseline `[10,12,8]` (sample
variance 4, stddev 2), recent `[13,13]` (`R = 2`), so `diff = 3 > 2` and
the statistic is labelled Heating. -/
theorem C4_witness :
    baselineVar stdSeries 2 "PTS" = 4 ∧ stdDiff stdSeries 2 "PTS" = 3 ∧
    ∃ r, analyze_trend_std stdSeries ["PTS"] 2 = some r ∧
      ("PTS", Label.heating) ∈ r := by
  have h4 : baselineVar stdSeries 2 "PTS" = 4 := by
    norm_num [baselineVar, sampleVar, statValues, baselineWindow, pdHead, mean, constRec,
      stdSeries]
  have h3 : stdDiff stdSeries 2 "PTS" = 3 := by
    norm_num [stdDiff, statValues, baselineWindow, recentWindow, pdHead, pdTail, mean,
      constRec, stdSeries]
  refine ⟨h4, h3, ?_⟩
  obtain ⟨r, hr, hh, -, -⟩ := C4_stddev_rule stdSeries ["PTS"] 2 "PTS"
    (by norm_num) (by norm_num [stdSeries]) (List.mem_singleton.mpr rfl)
    (by norm_num [baselineWindow, pdHead, stdSeries])
    (by rw [h4]; norm_num)
  refine ⟨r, hr, hh.mpr ?_⟩
  rw [h4, h3]
  have hc4 : ((4:ℚ):ℝ) = 4 := by norm_num
  have hc3 : ((3:ℚ):ℝ) = 3 := by norm_num
  rw [hc4, hc3, Real.sqrt_lt' (by norm_num : (0:ℝ) < 3)]
  norm_num

/-! ### Claim C7 -/

/-- C7: stddev method, exclusive boundary: when the change of the means
equals the baseline standard deviation exactly, the statistic is
labelled Stable (and only Stable), because the comparisons are strict. -/
theorem C7_boundary_stable (p : List (String → ℚ)) (sel : List String) (R : ℕ)
    (stat : String) (hR : 1 ≤ R) (hlen : R + 1 ≤ p.length) (hmem : stat ∈ sel)
    (hn : 2 ≤ (baselineWindow p R).length) (hv : baselineVar p R stat ≠ 0)
    (heq : (stdDiff p R stat : ℝ) = Real.sqrt (baselineVar p R stat : ℝ)) :
    ∃ r, analyze_trend_std p sel R = some r ∧ (stat, Label.stable) ∈ r ∧
      ∀ l, (stat, l) ∈ r → l = Label.stable := by
  obtain ⟨hh, hc, hs⟩ := stdStatLabel_characterization p R stat hn hv
  have hsq0 : (0:ℝ) ≤ Real.sqrt (baselineVar p R stat : ℝ) := Real.sqrt_nonneg _
  have habs : |(stdDiff p R stat : ℝ)| ≤ Real.sqrt (baselineVar p R stat : ℝ) := by
    rw [heq, abs_of_nonneg hsq0]
  refine ⟨_, analyze_std_eq p sel R hlen, ?_, ?_⟩
  · rw [mem_filterMap_pair_iff sel (stdStatLabel p R) stat Label.stable hmem]
    exact hs.mpr habs
  · intro l hl
    have hl2 := (mem_filterMap_pair_iff sel (stdStatLabel p R) stat l hmem).mp hl
    cases l with
    | heating =>
      have := hh.mp hl2
      rw [heq] at this
      exact absurd this (lt_irrefl _)
    | cooling =>
      have := hc.mp hl2
      rw [heq] at this
      linarith
    | stable => rfl

/-- Witness for C7: baseline `[10,12,8]` (stddev 2), recent `[12,12]`
(`R = 2`), so the change of means is exactly 2 and the label is Stable. -/
theorem C7_witness :
    ∃ r, analyze_trend_std boundarySeries ["PTS"] 2 = some r ∧
      ("PTS", Label.stable) ∈ r ∧
      ∀ l, ("PTS", l) ∈ r → l = Label.stable := by
  have h4 : baselineVar boundarySeries 2 "PTS" = 4 := by
    norm_num [baselineVar, sampleVar, statValues, baselineWindow, pdHead, mean, constRec,
      boundarySeries]
  have h2 : stdDiff boundarySeries 2 "PTS" = 2 := by
    norm_num [stdDiff, statValues, baselineWindow, recentWindow, pdHead, pdTail, mean,
      constRec, boundarySeries]
  refine C7_boundary_stable boundarySeries ["PTS"] 2 "PTS"
    (by norm_num) (by norm_num [boundarySeries]) (List.mem_singleton.mpr rfl)
    (by norm_num [baselineWindow, pdHead, boundarySeries])
    (by rw [h4]; norm_num) ?_
  rw [h4, h2]
  have hsq : Real.sqrt ((4:ℚ):ℝ) = 2 := by
    rw [show ((4:ℚ):ℝ) = 2 ^ 2 by norm_num]
    exact Real.sqrt_sq (by norm_num)
  rw [hsq]
  norm_num

/-! ### Claim C8 -/

/-- C8 fails on the code as stated: in the all-zero series the recent
and baseline means are equal, yet no Stable label is emitted — the
statistic is skipped because its baseline mean is zero, so the result is
the empty comment list. -/
theorem C8_counterexample :
    recentMean allZeroSeries 1 "PTS" = baselineMean allZeroSeries 1 "PTS" ∧
    1 + 1 ≤ allZeroSeries.length ∧
    analyze_trend_pct allZeroSeries ["PTS"] 1 = some [] ∧
    ("PTS", Label.stable) ∉ (analyze_trend_pct allZeroSeries ["PTS"] 1).getD [] := by
  have hres : analyze_trend_pct allZeroSeries ["PTS"] 1 = some [] := by
    norm_num [analyze_trend_pct, pctStatLabel, pctLabel, statValues, baselineWindow,
      recentWindow, pdHead, pdTail, mean, constRec, allZeroSeries, List.filterMap_cons]
  refine ⟨?_, by norm_num [allZeroSeries], hres, ?_⟩
  · norm_num [recentMean, baselineMean, statValues, baselineWindow, recentWindow, pdHead,
      pdTail, mean, constRec, allZeroSeries]
  · rw [hres]
    simp

/-- C8 as amended: percentage method, equal recent and baseline means
and a nonzero baseline mean: the statistic is labelled Stable (and only
Stable). -/
theorem C8_equal_means_stable (p : List (String → ℚ)) (sel : List String) (R : ℕ)
    (stat : String) (hR : 1 ≤ R) (hlen : R + 1 ≤ p.length) (hmem : stat ∈ sel)
    (hb : baselineMean p R stat ≠ 0)
    (heq : recentMean p R stat = baselineMean p R stat) :
    ∃ r, analyze_trend_pct p sel R = some r ∧ (stat, Label.stable) ∈ r ∧
      ∀ l, (stat, l) ∈ r → l = Label.stable := by
  have hdiff : pctDiff p R stat = 0 := by
    unfold recentMean baselineMean at heq
    unfold pctDiff
    rw [heq, sub_self, zero_div]
  obtain ⟨hh, hc, hs⟩ := pctStatLabel_characterization p R stat hb
  refine ⟨_, analyze_pct_eq p sel R hlen, ?_, ?_⟩
  · rw [mem_filterMap_pair_iff sel (pctStatLabel p R) stat Label.stable hmem]
    apply hs.mpr
    rw [hdiff]
    norm_num [threshold]
  · intro l hl
    have hl2 := (mem_filterMap_pair_iff sel (pctStatLabel p R) stat l hmem).mp hl
    cases l with
    | heating =>
      have := hh.mp hl2
      rw [hdiff] at this
      norm_num [threshold] at this
    | cooling =>
      have := hc.mp hl2
      rw [hdiff] at this
      norm_num [threshold] at this
    | stable => rfl

/-- Witness for the amended C8: constant series `[5,5,5]`, `R = 1`,
equal means with nonzero baseline mean, labelled Stable. -/
theorem C8_witness :
    ∃ r, analyze_trend_pct constantSeries ["PTS"] 1 = some r ∧
      ("PTS", Label.stable) ∈ r ∧
      ∀ l, ("PTS", l) ∈ r → l = Label.stable :=
  C8_equal_means_stable constantSeries ["PTS"] 1 "PTS"
    (by norm_num) (by norm_num [constantSeries]) (List.mem_singleton.mpr rfl)
    (by norm_num [baselineMean, statValues, baselineWindow, pdHead, mean, constRec,
      constantSeries])
    (by norm_num [recentMean, baselineMean, statValues, baselineWindow, recentWindow,
      pdHead, pdTail, mean, constRec, constantSeries])

/-! ### Claims C1 and C2: skipped statistics -/

theorem pctStatLabel_eq_none_iff (p : List (String → ℚ)) (R : ℕ) (stat : String) :
    pctStatLabel p R stat = none ↔ baselineMean p R stat = 0 := by
  unfold pctStatLabel pctLabel baselineMean
  split_ifs with h h1 h2 <;> simp [h]

theorem stdStatLabel_eq_none_iff (p : List (String → ℚ)) (R : ℕ) (stat : String) :
    stdStatLabel p R stat = none ↔
      ((baselineWindow p R).length < 2 ∨ baselineVar p R stat = 0) := by
  unfold stdStatLabel stdLabel baselineVar
  rw [statValues_length]
  split_ifs <;> simp_all

/-- C1 fails on the code as stated: in the two-game all-zero series with
the single configured statistic `PTS`, the series is long enough and the
statistic set non-empty, yet the result contains no label at all for
`PTS` (its baseline mean is zero, so the loop skips it). -/
theorem C1_counterexample :
    1 + 1 ≤ zeroPairSeries.length ∧ (["PTS"] : List String) ≠ [] ∧
    analyze_trend_pct zeroPairSeries ["PTS"] 1 = some [] ∧
    (((analyze_trend_pct zeroPairSeries ["PTS"] 1).getD []).map Prod.fst).count "PTS" = 0 := by
  have hres : analyze_trend_pct zeroPairSeries ["PTS"] 1 = some [] := by
    norm_num [analyze_trend_pct, pctStatLabel, pctLabel, statValues, baselineWindow,
      recentWindow, pdHead, pdTail, mean, constRec, zeroPairSeries, List.filterMap_cons]
  refine ⟨by norm_num [zeroPairSeries], by simp, hres, ?_⟩
  rw [hres]
  simp

/-- C1 as amended: for a duplicate-free configured statistic set, each
configured statistic receives exactly one label when its baseline is
non-degenerate (nonzero baseline mean for the percentage variant; at
least two baseline games and nonzero baseline variance for the stddev
variant) and zero labels — it is omitted — when its baseline is
degenerate; in particular no statistic ever appears twice. -/
theorem C1_label_multiplicity (p : List (String → ℚ)) (sel : List String) (R : ℕ)
    (stat : String) (hR : 1 ≤ R) (hlen : R + 1 ≤ p.length) (hnd : sel.Nodup)
    (hmem : stat ∈ sel) :
    ∃ r1 r2, analyze_trend_pct p sel R = some r1 ∧ analyze_trend_std p sel R = some r2 ∧
      (r1.map Prod.fst).count stat = (if baselineMean p R stat = 0 then 0 else 1) ∧
      (r2.map Prod.fst).count stat =
        (if (baselineWindow p R).length < 2 ∨ baselineVar p R stat = 0 then 0 else 1) := by
  refine ⟨_, _, analyze_pct_eq p sel R hlen, analyze_std_eq p sel R hlen, ?_, ?_⟩
  · rw [count_key_filterMap (pctStatLabel p R) stat sel hnd hmem]
    by_cases hb : baselineMean p R stat = 0
    · rw [if_pos hb, (pctStatLabel_eq_none_iff p R stat).mpr hb]
      simp
    · rw [if_neg hb]
      have hne : pctStatLabel p R stat ≠ none :=
        fun h => hb ((pctStatLabel_eq_none_iff p R stat).mp h)
      cases hopt : pctStatLabel p R stat with
      | none => exact absurd hopt hne
      | some l => simp
  · rw [count_key_filterMap (stdStatLabel p R) stat sel hnd hmem]
    by_cases hb : (baselineWindow p R).length < 2 ∨ baselineVar p R stat = 0
    · rw [if_pos hb, (stdStatLabel_eq_none_iff p R stat).mpr hb]
      simp
    · rw [if_neg hb]
      have hne : stdStatLabel p R stat ≠ none :=
        fun h => hb ((stdStatLabel_eq_none_iff p R stat).mp h)
      cases hopt : stdStatLabel p R stat with
      | none => exact absurd hopt hne
      | some l => simp

/-- A four-game series whose baseline (for `R = 1`) is non-degenerate
for both variants. -/
def mixedSeries : List (String → ℚ) := [constRec 1, constRec 2, constRec 3, constRec 10]

/-- Witness for the amended C1 at a concrete non-degenerate series. -/
theorem C1_witness :
    ∃ r1 r2, analyze_trend_pct mixedSeries ["PTS"] 1 = some r1 ∧
      analyze_trend_std mixedSeries ["PTS"] 1 = some r2 ∧
      (r1.map Prod.fst).count "PTS" = (if baselineMean mixedSeries 1 "PTS" = 0 then 0 else 1) ∧
      (r2.map Prod.fst).count "PTS" =
        (if (baselineWindow mixedSeries 1).length < 2 ∨ baselineVar mixedSeries 1 "PTS" = 0
          then 0 else 1) :=
  C1_label_multiplicity mixedSeries ["PTS"] 1 "PTS" (by norm_num)
    (by norm_num [mixedSeries]) (by simp) (List.mem_singleton.mpr rfl)

/-- Constant three-game series for the stddev-degeneracy counterexample. -/
def flatSeries : List (String → ℚ) := [constRec 9, constRec 9, constRec 9]

/-- C2 fails on the code as stated: in a constant series the baseline
standard deviation is zero (a degenerate baseline), the classifier does
not fault and does not emit Stable — but it also emits no explicit
Undetermined outcome: the statistic simply has no entry in the result. -/
theorem C2_counterexample :
    baselineVar flatSeries 1 "REB" = 0 ∧
    1 + 1 ≤ flatSeries.length ∧
    analyze_trend_std flatSeries ["REB"] 1 = some [] ∧
    ∀ l : Label, ("REB", l) ∉ (analyze_trend_std flatSeries ["REB"] 1).getD [] := by
  have hres : analyze_trend_std flatSeries ["REB"] 1 = some [] := by
    norm_num [analyze_trend_std, stdStatLabel, stdLabel, statValues, baselineWindow,
      recentWindow, pdHead, pdTail, mean, sampleVar, sqrtLt, constRec, flatSeries,
      List.filterMap_cons]
  refine ⟨?_, by norm_num [flatSeries], hres, ?_⟩
  · norm_num [baselineVar, sampleVar, statValues, baselineWindow, pdHead, mean, constRec,
      flatSeries]
  · rw [hres]
    simp

/-- C2 as amended: a statistic with a degenerate baseline (zero baseline
mean under the percentage method; fewer than two baseline games or zero
baseline variance under the stddev method) never raises a fault — both
variants still return a result — and is never labelled Stable: it is
silently omitted from the result (no label at all), rather than receiving
an explicit Undetermined outcome. -/
theorem C2_degenerate_omitted (p : List (String → ℚ)) (sel : List String) (R : ℕ)
    (stat : String) (hlen : R + 1 ≤ p.length) :
    ∃ r1 r2, analyze_trend_pct p sel R = some r1 ∧ analyze_trend_std p sel R = some r2 ∧
      (baselineMean p R stat = 0 → ∀ l, (stat, l) ∉ r1) ∧
      ((baselineWindow p R).length < 2 ∨ baselineVar p R stat = 0 →
        ∀ l, (stat, l) ∉ r2) := by
  refine ⟨_, _, analyze_pct_eq p sel R hlen, analyze_std_eq p sel R hlen, ?_, ?_⟩
  · intro hb l
    exact not_mem_filterMap_pair sel (pctStatLabel p R) stat
      ((pctStatLabel_eq_none_iff p R stat).mpr hb) l
  · intro hdeg l
    exact not_mem_filterMap_pair sel (stdStatLabel p R) stat
      ((stdStatLabel_eq_none_iff p R stat).mpr hdeg) l

/-- Series whose baseline (for `R = 1`) is degenerate for both variants:
a single baseline game with value zero. -/
def degSeries : List (String → ℚ) := [constRec 0, constRec 4]

/-- Witness for the amended C2 at a concrete degenerate series. -/
theorem C2_witness :
    ∃ r1 r2, analyze_trend_pct degSeries ["PTS"] 1 = some r1 ∧
      analyze_trend_std degSeries ["PTS"] 1 = some r2 ∧
      (baselineMean degSeries 1 "PTS" = 0 → ∀ l, ("PTS", l) ∉ r1) ∧
      ((baselineWindow degSeries 1).length < 2 ∨ baselineVar degSeries 1 "PTS" = 0 →
        ∀ l, ("PTS", l) ∉ r2) :=
  C2_degenerate_omitted degSeries ["PTS"] 1 "PTS" (by norm_num [degSeries])

/-! ### Claim C9 -/

/-- C9: each statistic's label depends only on that statistic's own
column of values (and the configuration): replacing the series by one of
the same length that agrees on the statistic's column leaves its
per-statistic label unchanged, and permuting the configured statistic
set permutes the result correspondingly (for both variants). -/
theorem C9_independence (p q : List (String → ℚ)) (R : ℕ) (sel1 sel2 : List String)
    (stat : String) (hperm : sel1.Perm sel2) (hlen : p.length = q.length)
    (hvals : statValues p stat = statValues q stat) :
    (∀ r1 r2, analyze_trend_pct p sel1 R = some r1 →
      analyze_trend_pct p sel2 R = some r2 → r1.Perm r2) ∧
    (∀ r1 r2, analyze_trend_std p sel1 R = some r1 →
      analyze_trend_std p sel2 R = some r2 → r1.Perm r2) ∧
    pctStatLabel p R stat = pctStatLabel q R stat ∧
    stdStatLabel p R stat = stdStatLabel q R stat := by
  unfold statValues at hvals
  have hbase : statValues (baselineWindow p R) stat = statValues (baselineWindow q R) stat := by
    unfold baselineWindow pdHead statValues
    rw [List.map_take, List.map_take, hvals, hlen]
  have hrec : statValues (recentWindow p R) stat = statValues (recentWindow q R) stat := by
    unfold recentWindow pdTail statValues
    rw [List.map_drop, List.map_drop, hvals, hlen]
  refine ⟨?_, ?_, ?_, ?_⟩
  · intro r1 r2 h1 h2
    unfold analyze_trend_pct at h1 h2
    by_cases hshort : p.length < R + 1
    · rw [if_pos hshort] at h1
      exact absurd h1 (by simp)
    · rw [if_neg hshort] at h1 h2
      injection h1 with h1
      injection h2 with h2
      rw [← h1, ← h2]
      exact hperm.filterMap _
  · intro r1 r2 h1 h2
    unfold analyze_trend_std at h1 h2
    by_cases hshort : p.length < R + 1
    · rw [if_pos hshort] at h1
      exact absurd h1 (by simp)
    · rw [if_neg hshort] at h1 h2
      injection h1 with h1
      injection h2 with h2
      rw [← h1, ← h2]
      exact hperm.filterMap _
  · unfold pctStatLabel
    rw [hbase, hrec]
  · unfold stdStatLabel
    rw [hbase, hrec]

/-- A record with a `PTS` value and a common value for all other
statistics. -/
def dualRec (pts other : ℚ) : String → ℚ := fun s => if s = "PTS" then pts else other

/-- Three games whose non-`PTS` columns are large. -/
def seriesA : List (String → ℚ) := [dualRec 1 100, dualRec 2 200, dualRec 3 300]

/-- Three games agreeing with `seriesA` on `PTS` but zero elsewhere. -/
def seriesB : List (String → ℚ) := [dualRec 1 0, dualRec 2 0, dualRec 3 0]

/-- Witness for C9: swapped statistic sets and two series agreeing only
on the `PTS` column. -/
theorem C9_witness :
    (∀ r1 r2, analyze_trend_pct seriesA ["PTS", "REB"] 1 = some r1 →
      analyze_trend_pct seriesA ["REB", "PTS"] 1 = some r2 → r1.Perm r2) ∧
    (∀ r1 r2, analyze_trend_std seriesA ["PTS", "REB"] 1 = some r1 →
      analyze_trend_std seriesA ["REB", "PTS"] 1 = some r2 → r1.Perm r2) ∧
    pctStatLabel seriesA 1 "PTS" = pctStatLabel seriesB 1 "PTS" ∧
    stdStatLabel seriesA 1 "PTS" = stdStatLabel seriesB 1 "PTS" :=
  C9_independence seriesA seriesB 1 ["PTS", "REB"] ["REB", "PTS"] "PTS"
    (List.Perm.swap "REB" "PTS" []) (by simp [seriesA, seriesB])
    (by simp [statValues, dualRec, seriesA, seriesB])

/-! ### normalize_name (`heat_check.py`, lines 16-33)

The routine trims the name, NFKD-decomposes it, drops combining marks,
lowercases, deletes every character outside `[a-z0-9\s]`, collapses
whitespace runs to single spaces and trims again.  The two Unicode
primitives `unicodedata.normalize('NFKD', -)` (embedded as a per-character
decomposition) and `unicodedata.combining` are external library tables;
they enter the embedding as parameters `nfkd` and `comb`.  The
idempotence theorem only uses the one fact about them that real Unicode
satisfies: lowercase ASCII letters, digits and the space are NFKD-inert
and non-combining. -/

/-- Whitespace as seen by Python's `str.strip` and the regex class `\s`
(the ASCII repertoire; no other whitespace can reach the second pass). -/
def pyWhitespace (c : Char) : Bool :=
  c == ' ' || c == '\t' || c == '\n' || c == '\r' || c == '\x0b' || c == '\x0c'

/-- Python `str.strip()`: drop whitespace from both ends. -/
def pyStrip (l : List Char) : List Char :=
  ((l.dropWhile pyWhitespace).reverse.dropWhile pyWhitespace).reverse

/-- Characters kept by `re.sub(r"[^a-z0-9\s]", "", -)`: lowercase ASCII
letters, digits and whitespace. -/
def keepChar (c : Char) : Bool :=
  decide (97 ≤ c.toNat ∧ c.toNat ≤ 122) || decide (48 ≤ c.toNat ∧ c.toNat ≤ 57)
    || pyWhitespace c

/-- `re.sub(r"\s+", " ", -)`: replace each maximal whitespace run with a
single space.  The Boolean flag records whether the previous character
was whitespace (i.e. whether we are inside a run). -/
def collapseAux : Bool → List Char → List Char
  | _, [] => []
  | prevWs, c :: rest =>
    if pyWhitespace c then (if prevWs then [] else [' ']) ++ collapseAux true rest
    else c :: collapseAux false rest

/-- Collapse whitespace runs, starting outside a run. -/
def collapseSpaces (l : List Char) : List Char := collapseAux false l

/-- `normalize_name` on character lists: trim, NFKD-decompose, drop
combining marks, lowercase (`Char.toLower`, the basic-latin lowering that
Python's `str.lower` performs on the characters that survive the later
filter), delete `[^a-z0-9\s]`, collapse whitespace, trim. -/
def normalizeChars (nfkd : Char → List Char) (comb : Char → Bool) (l : List Char) :
    List Char :=
  pyStrip (collapseSpaces
    (((((pyStrip l).flatMap nfkd).filter (fun c => !comb c)).map Char.toLower).filter
      keepChar))

/-- `normalize_name` of `heat_check.py`, parameterized by the Unicode
decomposition and combining-class tables. -/
def normalize_name (nfkd : Char → List Char) (comb : Char → Bool) (s : String) : String :=
  String.mk (normalizeChars nfkd comb s.data)

/-- The output alphabet of `normalize_name`: lowercase ASCII letters,
digits, and the space. -/
def normalChar (c : Char) : Bool :=
  decide (97 ≤ c.toNat ∧ c.toNat ≤ 122) || decide (48 ≤ c.toNat ∧ c.toNat ≤ 57)
    || c == ' '

/-- No two adjacent spaces. -/
def noDoubleSpace (l : List Char) : Prop :=
  l.Chain' (fun a b => ¬(a = ' ' ∧ b = ' '))

theorem normalChar_space : normalChar ' ' = true := by decide

theorem normalChar_of_keep_not_ws (c : Char) (hk : keepChar c = true)
    (hw : pyWhitespace c = false) : normalChar c = true := by
  unfold keepChar at hk
  unfold normalChar
  rw [hw, Bool.or_false] at hk
  rw [Bool.or_eq_true]
  exact Or.inl hk

theorem ws_of_normal (c : Char) (hn : normalChar c = true) (hw : pyWhitespace c = true) :
    c = ' ' := by
  unfold pyWhitespace at hw
  simp only [Bool.or_eq_true, beq_iff_eq] at hw
  rcases hw with ((((h | h) | h) | h) | h) | h <;> (subst h; revert hn; decide)

theorem keep_of_normal (c : Char) (hn : normalChar c = true) : keepChar c = true := by
  unfold normalChar at hn
  unfold keepChar
  simp only [Bool.or_eq_true, beq_iff_eq] at hn ⊢
  rcases hn with (h | h) | h
  · exact Or.inl (Or.inl h)
  · exact Or.inl (Or.inr h)
  · subst h
    exact Or.inr (by decide)

theorem toLower_eq_self (c : Char) (hn : normalChar c = true) : c.toLower = c := by
  unfold normalChar at hn
  simp only [Bool.or_eq_true, decide_eq_true_eq, beq_iff_eq] at hn
  show (if c.toNat ≥ 65 ∧ c.toNat ≤ 90 then Char.ofNat (c.toNat + 32) else c) = c
  rcases hn with (⟨h1, h2⟩ | ⟨h1, h2⟩) | h
  · rw [if_neg (by omega)]
  · rw [if_neg (by omega)]
  · subst h
    rfl

theorem head_dropWhile_not_ws (p : Char → Bool) :
    ∀ l : List Char, ∀ c, (l.dropWhile p).head? = some c → p c = false
  | [], c, h => by simp [List.dropWhile] at h
  | a :: r, c, h => by
    rw [List.dropWhile_cons] at h
    by_cases hp : p a = true
    · rw [if_pos hp] at h
      exact head_dropWhile_not_ws p r c h
    · rw [if_neg hp] at h
      rw [List.head?_cons] at h
      injection h with h
      subst h
      simpa using hp

theorem dropWhile_eq_self_of_head (p : Char → Bool) (l : List Char)
    (h : ∀ c, l.head? = some c → p c = false) : l.dropWhile p = l := by
  cases l with
  | nil => rfl
  | cons a r =>
    rw [List.dropWhile_cons, if_neg]
    simp [h a rfl]

theorem pyStrip_eq_self (l : List Char)
    (hh : ∀ c, l.head? = some c → pyWhitespace c = false)
    (hl : ∀ c, l.getLast? = some c → pyWhitespace c = false) : pyStrip l = l := by
  unfold pyStrip
  rw [dropWhile_eq_self_of_head pyWhitespace l hh]
  rw [dropWhile_eq_self_of_head pyWhitespace l.reverse
    (fun c hc => hl c (by rwa [List.head?_reverse] at hc))]
  exact List.reverse_reverse l

theorem pyStrip_head_not_ws (l : List Char) :
    ∀ c, (pyStrip l).head? = some c → pyWhitespace c = false := by
  unfold pyStrip
  intro c hc
  rw [List.head?_reverse] at hc
  obtain ⟨t, ht⟩ := List.dropWhile_suffix (l := (l.dropWhile pyWhitespace).reverse)
    pyWhitespace
  have hlast : (l.dropWhile pyWhitespace).reverse.getLast? = some c := by
    rw [← ht, List.getLast?_append, hc]
    rfl
  rw [List.getLast?_reverse] at hlast
  exact head_dropWhile_not_ws pyWhitespace l c hlast

theorem pyStrip_last_not_ws (l : List Char) :
    ∀ c, (pyStrip l).getLast? = some c → pyWhitespace c = false := by
  unfold pyStrip
  intro c hc
  rw [List.getLast?_reverse] at hc
  exact head_dropWhile_not_ws pyWhitespace _ c hc

theorem mem_pyStrip (l : List Char) (c : Char) (hc : c ∈ pyStrip l) : c ∈ l := by
  unfold pyStrip at hc
  rw [List.mem_reverse] at hc
  have h1 := (List.dropWhile_suffix pyWhitespace).subset hc
  rw [List.mem_reverse] at h1
  exact (List.dropWhile_suffix pyWhitespace).subset h1

theorem noDouble_suffix {l1 l2 : List Char} (h : l1 <:+ l2) (hd : noDoubleSpace l2) :
    noDoubleSpace l1 := by
  obtain ⟨t, rfl⟩ := h
  exact (List.chain'_append.mp hd).2.1

theorem noDouble_reverse (l : List Char) (h : noDoubleSpace l) :
    noDoubleSpace l.reverse := by
  unfold noDoubleSpace at h ⊢
  rw [List.chain'_reverse]
  exact h.imp (fun a b hab => by unfold flip; tauto)

theorem noDouble_pyStrip (l : List Char) (h : noDoubleSpace l) :
    noDoubleSpace (pyStrip l) := by
  unfold pyStrip
  exact noDouble_reverse _ (noDouble_suffix (List.dropWhile_suffix _)
    (noDouble_reverse _ (noDouble_suffix (List.dropWhile_suffix _) h)))

theorem collapse_all_normal :
    ∀ (l : List Char) (b : Bool), (∀ c ∈ l, keepChar c = true) →
      ∀ c ∈ collapseAux b l, normalChar c = true
  | [], b, _, c, hc => by simp [collapseAux] at hc
  | a :: r, b, hall, c, hc => by
    have htail : ∀ x ∈ r, keepChar x = true := fun x hx => hall x (List.mem_cons_of_mem a hx)
    by_cases hw : pyWhitespace a = true
    · have e : collapseAux b (a :: r) = (if b then [] else [' ']) ++ collapseAux true r := by
        simp [collapseAux, hw]
      rw [e] at hc
      rcases List.mem_append.mp hc with h1 | h2
      · cases b with
        | true => simp at h1
        | false =>
          rw [List.mem_singleton.mp h1]
          exact normalChar_space
      · exact collapse_all_normal r true htail c h2
    · have e : collapseAux b (a :: r) = a :: collapseAux false r := by
        simp [collapseAux, hw]
      rw [e] at hc
      rcases List.mem_cons.mp hc with h1 | h2
      · subst h1
        exact normalChar_of_keep_not_ws _ (hall _ (List.mem_cons_self _ _))
          (by simpa using hw)
      · exact collapse_all_normal r false htail c h2

theorem collapse_shape :
    ∀ l : List Char, noDoubleSpace (collapseAux false l) ∧
      noDoubleSpace (collapseAux true l) ∧
      (∀ c, (collapseAux true l).head? = some c → pyWhitespace c = false)
  | [] => by
    refine ⟨?_, ?_, ?_⟩
    · exact List.chain'_nil
    · exact List.chain'_nil
    · intro c hc
      simp [collapseAux] at hc
  | a :: r => by
    obtain ⟨ih1, ih2, ih3⟩ := collapse_shape r
    by_cases hw : pyWhitespace a = true
    · have e1 : collapseAux true (a :: r) = collapseAux true r := by simp [collapseAux, hw]
      have e0 : collapseAux false (a :: r) = ' ' :: collapseAux true r := by
        simp [collapseAux, hw]
      refine ⟨?_, by rw [e1]; exact ih2, by rw [e1]; exact ih3⟩
      rw [e0]
      unfold noDoubleSpace at ih2 ⊢
      rw [List.chain'_cons']
      refine ⟨?_, ih2⟩
      intro y hy
      rintro ⟨-, rfl⟩
      have := ih3 ' ' (Option.mem_def.mp hy)
      exact absurd this (by decide)
    · have e : ∀ b : Bool, collapseAux b (a :: r) = a :: collapseAux false r := fun b => by
        simp [collapseAux, hw]
      have hchain : noDoubleSpace (a :: collapseAux false r) := by
        unfold noDoubleSpace at ih1 ⊢
        rw [List.chain'_cons']
        refine ⟨?_, ih1⟩
        intro y _
        rintro ⟨rfl, -⟩
        exact absurd hw (by decide)
      refine ⟨by rw [e false]; exact hchain, by rw [e true]; exact hchain, ?_⟩
      intro c hc
      rw [e true, List.head?_cons] at hc
      injection hc with hc
      subst hc
      simpa using hw

theorem collapse_eq_self :
    ∀ l : List Char, (∀ c ∈ l, normalChar c = true) → noDoubleSpace l →
      collapseAux false l = l ∧
      ((∀ c, l.head? = some c → c ≠ ' ') → collapseAux true l = l)
  | [], _, _ => ⟨rfl, fun _ => rfl⟩
  | a :: r, hall, hnd => by
    have htail : ∀ x ∈ r, normalChar x = true := fun x hx => hall x (List.mem_cons_of_mem a hx)
    have hnd2 := (List.chain'_cons'.mp hnd)
    have ih := collapse_eq_self r htail hnd2.2
    by_cases hw : pyWhitespace a = true
    · have ha : a = ' ' := ws_of_normal a (hall a (List.mem_cons_self a r)) hw
      subst ha
      have e0 : collapseAux false (' ' :: r) = ' ' :: collapseAux true r := by
        simp [collapseAux, show pyWhitespace ' ' = true from by decide]
      constructor
      · rw [e0]
        congr 1
        apply ih.2
        intro c hc
        intro hceq
        subst hceq
        exact hnd2.1 ' ' (Option.mem_def.mpr hc) ⟨rfl, rfl⟩
      · intro hhead
        exact absurd rfl (hhead ' ' rfl)
    · have e : ∀ b : Bool, collapseAux b (a :: r) = a :: collapseAux false r := fun b => by
        simp [collapseAux, hw]
      constructor
      · rw [e false, ih.1]
      · intro _
        rw [e true, ih.1]

theorem flatMap_eq_self (f : Char → List Char) :
    ∀ l : List Char, (∀ c ∈ l, f c = [c]) → l.flatMap f = l
  | [], _ => rfl
  | a :: r, h => by
    rw [List.flatMap_cons, h a (List.mem_cons_self a r),
      flatMap_eq_self f r (fun c hc => h c (List.mem_cons_of_mem a hc))]
    rfl

theorem map_eq_self_of_id (f : Char → Char) :
    ∀ l : List Char, (∀ c ∈ l, f c = c) → l.map f = l
  | [], _ => rfl
  | a :: r, h => by
    rw [List.map_cons, h a (List.mem_cons_self a r),
      map_eq_self_of_id f r (fun c hc => h c (List.mem_cons_of_mem a hc))]

theorem normalizeChars_canonical (nfkd : Char → List Char) (comb : Char → Bool)
    (l : List Char) :
    (∀ c ∈ normalizeChars nfkd comb l, normalChar c = true) ∧
    noDoubleSpace (normalizeChars nfkd comb l) ∧
    (∀ c, (normalizeChars nfkd comb l).head? = some c → pyWhitespace c = false) ∧
    (∀ c, (normalizeChars nfkd comb l).getLast? = some c → pyWhitespace c = false) := by
  unfold normalizeChars collapseSpaces
  set mid := ((((pyStrip l).flatMap nfkd).filter (fun c => !comb c)).map
    Char.toLower).filter keepChar with hmid
  have hkeep : ∀ c ∈ mid, keepChar c = true := fun c hc => (List.mem_filter.mp hc).2
  have hshape := collapse_shape mid
  refine ⟨?_, noDouble_pyStrip _ hshape.1, pyStrip_head_not_ws _, pyStrip_last_not_ws _⟩
  intro c hc
  exact collapse_all_normal mid false hkeep c (mem_pyStrip _ c hc)

theorem normalizeChars_eq_self (nfkd : Char → List Char) (comb : Char → Bool)
    (hid : ∀ c, normalChar c = true → nfkd c = [c] ∧ comb c = false) (t : List Char)
    (hall : ∀ c ∈ t, normalChar c = true) (hnd : noDoubleSpace t)
    (hh : ∀ c, t.head? = some c → pyWhitespace c = false)
    (hl : ∀ c, t.getLast? = some c → pyWhitespace c = false) :
    normalizeChars nfkd comb t = t := by
  have e1 : pyStrip t = t := pyStrip_eq_self t hh hl
  have e2 : t.flatMap nfkd = t := flatMap_eq_self nfkd t (fun c hc => (hid c (hall c hc)).1)
  have e3 : List.filter (fun c => !comb c) t = t :=
    List.filter_eq_self.mpr (fun c hc => by rw [(hid c (hall c hc)).2]; rfl)
  have e4 : t.map Char.toLower = t :=
    map_eq_self_of_id Char.toLower t (fun c hc => toLower_eq_self c (hall c hc))
  have e5 : List.filter keepChar t = t :=
    List.filter_eq_self.mpr (fun c hc => keep_of_normal c (hall c hc))
  have e6 : collapseAux false t = t := (collapse_eq_self t hall hnd).1
  unfold normalizeChars collapseSpaces
  rw [e1, e2, e3, e4, e5, e6, e1]

/-! ### Claim C10 -/

/-- C10: `normalize_name` is idempotent, under the one Unicode fact the
pipeline relies on — lowercase ASCII letters, digits and the space are
NFKD-inert and non-combining.  Its output is a fixed point: it contains
only lowercase ASCII letters, digits and spaces, with no leading or
trailing whitespace and no two adjacent spaces, so a second application
changes nothing. -/
theorem C10_normalize_name_idempotent (nfkd : Char → List Char) (comb : Char → Bool)
    (hid : ∀ c, normalChar c = true → nfkd c = [c] ∧ comb c = false) (s : String) :
    (∀ c ∈ (normalize_name nfkd comb s).data, normalChar c = true) ∧
    (∀ c, (normalize_name nfkd comb s).data.head? = some c → pyWhitespace c = false) ∧
    (∀ c, (normalize_name nfkd comb s).data.getLast? = some c → pyWhitespace c = false) ∧
    noDoubleSpace (normalize_name nfkd comb s).data ∧
    normalize_name nfkd comb (normalize_name nfkd comb s) = normalize_name nfkd comb s := by
  obtain ⟨h1, h2, h3, h4⟩ := normalizeChars_canonical nfkd comb s.data
  have hdata : (normalize_name nfkd comb s).data = normalizeChars nfkd comb s.data := rfl
  refine ⟨hdata ▸ h1, hdata ▸ h3, hdata ▸ h4, hdata ▸ h2, ?_⟩
  show String.mk (normalizeChars nfkd comb (normalizeChars nfkd comb s.data))
    = String.mk (normalizeChars nfkd comb s.data)
  rw [normalizeChars_eq_self nfkd comb hid _ h1 h2 h3 h4]

/-- The identity decomposition: a faithful model of NFKD on strings that
are already free of decomposable characters. -/
def idDecomp : Char → List Char := fun c => [c]

/-- The all-zero combining-class table: a faithful model of
`unicodedata.combining` on strings without combining marks. -/
def noComb : Char → Bool := fun _ => false

/-- Witness for C10 at a concrete messy ASCII name. -/
theorem C10_witness :
    (∀ c ∈ (normalize_name idDecomp noComb "  LeBron   JAMES!! ").data,
      normalChar c = true) ∧
    (∀ c, (normalize_name idDecomp noComb "  LeBron   JAMES!! ").data.head? = some c →
      pyWhitespace c = false) ∧
    (∀ c, (normalize_name idDecomp noComb "  LeBron   JAMES!! ").data.getLast? = some c →
      pyWhitespace c = false) ∧
    noDoubleSpace (normalize_name idDecomp noComb "  LeBron   JAMES!! ").data ∧
    normalize_name idDecomp noComb (normalize_name idDecomp noComb "  LeBron   JAMES!! ")
      = normalize_name idDecomp noComb "  LeBron   JAMES!! " :=
  C10_normalize_name_idempotent idDecomp noComb (fun _ _ => ⟨rfl, rfl⟩) "  LeBron   JAMES!! "

end HeatCheck
